import Mathlib

/-!
Verification development for the BAE_Sounds signal-composition core.

Shallow embedding choices:
* `Sample` (Rust `f32`) and `MathT` (Rust `f64`) are modelled as `ℚ`; the
  claims under study are structural (which arithmetic expressions are
  computed, in which order, over which state) and hold for any numeric
  carrier, so exact rational arithmetic stands in for floating point.
* `Arc<T>` sharing is modelled by a boolean flag recording whether the
  reference count of the pointer exceeds one at the moment of a call.
  `Arc::get_mut` succeeds exactly on an unshared pointer; an
  `Arc::get_mut(..).unwrap()` on a shared pointer panics, which the
  embedding renders as `Option.none` propagating out of the operation.
* Generators and Modifiers are external trait objects; they are modelled
  as explicit state machines (a state plus a step function), which is all
  the core requires of them.
-/

namespace BAE

/-- One audio sample (Rust `f32`), modelled as an exact rational. -/
abbrev Sample := ℚ

/-- High-precision math value (Rust `f64`), modelled as an exact rational. -/
abbrev MathT := ℚ

/-- A Generator trait object: internal state plus a step function producing
one sample per call. Modelled from the spec: the external Generator
capability exposes `process() -> Sample`, advancing one internal time step. -/
structure Gen (γ : Type) where
  state : γ
  step : γ → γ × Sample

/-- Advance the generator one step, returning the new generator and sample. -/
def Gen.process (g : Gen γ) : Gen γ × Sample :=
  (⟨(g.step g.state).1, g.step⟩, (g.step g.state).2)

/-- A Modifier trait object: internal state plus a step function consuming
one input sample per call. Modelled from the spec: the external Modifier
capability exposes `process(Sample) -> Sample`. -/
structure Mod (δ : Type) where
  state : δ
  step : δ → Sample → δ × Sample

/-- Advance the modifier one step on input `x`. -/
def Mod.process (m : Mod δ) (x : Sample) : Mod δ × Sample :=
  (⟨(m.step m.state x).1, m.step⟩, (m.step m.state x).2)

/-- The `Passthrough` modifier of the external `bae_mod` crate, used by
`BaeBlock::from_generator`. Modelled from the spec: the modifier slot of a
generator-only block is a neutral (identity) pass-through. -/
def Passthrough : Mod Unit := ⟨(), fun _ x => ((), x)⟩

/-- The `Zero` generator of the external `bae_gen` crate, used by
`BaeBlock::from_modifier`. Modelled from the spec: the generator slot of a
modifier-only block is a neutral (always-zero) source. -/
def Zero : Gen Unit := ⟨(), fun _ => ((), 0)⟩

/-- `BaeBlock` (src/src/bae_block.rs): one generator, one modifier, an
interactor closure, and the accumulated input sample. The three `*Shared`
flags record whether the corresponding internal `Arc` (`g`, `m`, `i`) is
shared (strong count above one) — `BaeBlock::process` calls
`Arc::get_mut(..).unwrap()` on each of them. -/
structure BaeBlock (γ δ : Type) where
  g : Gen γ
  m : Mod δ
  i : Sample → Sample → Sample
  input : Sample
  gShared : Bool
  mShared : Bool
  iShared : Bool

/-- `BaeBlock::generator_passthrough`: interactor passing the generator
sample through. -/
def BaeBlock.generator_passthrough : Sample → Sample → Sample :=
  fun ge _ => ge

/-- `BaeBlock::modifier_passthrough`: interactor passing the modifier
sample through. -/
def BaeBlock.modifier_passthrough : Sample → Sample → Sample :=
  fun _ mo => mo

/-- `BaeBlock::default_interactor`: multiplies the two samples. -/
def BaeBlock.default_interactor : Sample → Sample → Sample :=
  fun ge mo => ge * mo

/-- `BaeBlock::new`: fresh `Arc::new` wrappers for `g` and `m` (unshared);
the interactor `Arc` is passed in by the caller, so whether it is shared is a
parameter. -/
def BaeBlock.new (g : Gen γ) (m : Mod δ) (i : Sample → Sample → Sample)
    (iShared : Bool) : BaeBlock γ δ :=
  ⟨g, m, i, 0, false, false, iShared⟩

/-- `BaeBlock::from_generator`: modifier slot is `Passthrough`, interactor is
`generator_passthrough`; all internal `Arc`s are freshly created. -/
def BaeBlock.from_generator (g : Gen γ) : BaeBlock γ Unit :=
  ⟨g, Passthrough, BaeBlock.generator_passthrough, 0, false, false, false⟩

/-- `BaeBlock::from_modifier`: generator slot is `Zero`, interactor is
`modifier_passthrough`; all internal `Arc`s are freshly created. -/
def BaeBlock.from_modifier (m : Mod δ) : BaeBlock Unit δ :=
  ⟨Zero, m, BaeBlock.modifier_passthrough, 0, false, false, false⟩

/-- `Block::prime_input` for `BaeBlock`: accumulate `x` into the pending
input by addition. -/
def BaeBlock.prime_input (b : BaeBlock γ δ) (x : Sample) : BaeBlock γ δ :=
  { b with input := b.input + x }

/-- True when none of the block's three internal `Arc`s is shared, so each
`Arc::get_mut(..).unwrap()` in `BaeBlock::process` succeeds. -/
def BaeBlock.arcsFree (b : BaeBlock γ δ) : Bool :=
  !b.gShared && !b.mShared && !b.iShared

/-- The pure computation performed by a successful `BaeBlock::process`:
generator output and modifier output (on the accumulated input) are combined
by the interactor, and the accumulated input resets to zero. -/
def BaeBlock.processU (b : BaeBlock γ δ) : BaeBlock γ δ × Sample :=
  ({ b with g := b.g.process.1, m := (b.m.process b.input).1, input := 0 },
   b.i b.g.process.2 (b.m.process b.input).2)

/-- `Block::process` for `BaeBlock`: unwraps the interactor, generator and
modifier `Arc`s (panicking — `none` — if any is shared), combines the two
samples, resets the accumulated input, and returns the output. -/
def BaeBlock.process (b : BaeBlock γ δ) : Option (BaeBlock γ δ × Sample) :=
  if b.arcsFree then some b.processU else none

/-- Run `process` `n` times with no priming in between, collecting outputs. -/
def BaeBlock.processN (b : BaeBlock γ δ) : ℕ → Option (BaeBlock γ δ × List Sample)
  | 0 => some (b, [])
  | n + 1 =>
    match b.process with
    | none => none
    | some p =>
      match p.1.processN n with
      | none => none
      | some q => some (q.1, p.2 :: q.2)

/-- Run a bare generator `n` times, collecting outputs. -/
def Gen.processN (g : Gen γ) : ℕ → Gen γ × List Sample
  | 0 => (g, [])
  | n + 1 =>
    let p := g.process
    let q := p.1.processN n
    (q.1, p.2 :: q.2)

/-- `BlockSP = Arc<BaeBlock>` (src/src/bae_sound.rs): a block together with
a flag recording whether this `Arc` is shared. `BaeSound::process` calls
`BlockSP::get_mut`, which fails (returning `None`, handled by a fallback)
exactly when the flag is set. -/
structure BlockSP (γ δ : Type) where
  block : BaeBlock γ δ
  shared : Bool

/-- `BaeSound` (src/src/bae_sound.rs): one generator block, an ordered list
of modifier blocks, input/output gain, optional registration identity, and
mute/pause flags. -/
structure BaeSound (γ δ : Type) where
  generator : BlockSP γ δ
  modifier_list : List (BlockSP γ δ)
  input_gain : Sample
  output_gain : Sample
  id : Option ℕ
  is_muted : Bool
  is_paused : Bool

/-- `BaeSound::new`: empty modifier list, no identity, unmuted, unpaused. -/
def BaeSound.new (input_gain output_gain : MathT) (generator : BlockSP γ δ) :
    BaeSound γ δ :=
  ⟨generator, [], input_gain, output_gain, none, false, false⟩

/-- `Sound::toggle_pause` for `BaeSound`. -/
def BaeSound.toggle_pause (s : BaeSound γ δ) : BaeSound γ δ :=
  { s with is_paused := !s.is_paused }

/-- `Sound::toggle_mute` for `BaeSound`. -/
def BaeSound.toggle_mute (s : BaeSound γ δ) : BaeSound γ δ :=
  { s with is_muted := !s.is_muted }

/-- `Sound::register` for `BaeSound`. -/
def BaeSound.register (s : BaeSound γ δ) (id : ℕ) : BaeSound γ δ :=
  { s with id := some id }

/-- `Sound::unregister` for `BaeSound`. -/
def BaeSound.unregister (s : BaeSound γ δ) : BaeSound γ δ :=
  { s with id := none }

/-- `Sound::get_id` for `BaeSound`. -/
def BaeSound.get_id (s : BaeSound γ δ) : Option ℕ :=
  s.id

/-- `BaeSound::add_modifier`: push one modifier block onto the list. -/
def BaeSound.add_modifier (s : BaeSound γ δ) (m : BlockSP γ δ) : BaeSound γ δ :=
  { s with modifier_list := s.modifier_list ++ [m] }

/-- `BaeSound::extend_modifiers`: extend the list with the given blocks. -/
def BaeSound.extend_modifiers (s : BaeSound γ δ) (ms : List (BlockSP γ δ)) :
    BaeSound γ δ :=
  { s with modifier_list := s.modifier_list ++ ms }

/-- The modifier loop of `BaeSound::process`: each block is primed with the
running value and replaces it with its `process` result; a block whose `Arc`
is shared is skipped (`if let Some` fallback); an inner-`Arc` panic inside
`BaeBlock::process` propagates as `none`. -/
def BaeSound.modLoop : List (BlockSP γ δ) → Sample →
    Option (List (BlockSP γ δ) × Sample)
  | [], out => some ([], out)
  | b :: rest, out =>
    if b.shared then
      match BaeSound.modLoop rest out with
      | none => none
      | some q => some (b :: q.1, q.2)
    else
      match (b.block.prime_input out).process with
      | none => none
      | some p =>
        match BaeSound.modLoop rest p.2 with
        | none => none
        | some q => some ({ b with block := p.1 } :: q.1, q.2)

/-- The generator step of `BaeSound::process`: the generator block is primed
with the (already gain-scaled) input and processed, falling back to neutral
zero with no state change if its `Arc` is shared. -/
def BaeSound.genStep (g : BlockSP γ δ) (x : Sample) :
    Option (BlockSP γ δ × Sample) :=
  if g.shared then some (g, (0 : Sample))
  else
    match (g.block.prime_input x).process with
    | none => none
    | some p => some ({ g with block := p.1 }, p.2)

/-- The generator step followed by the modifier loop of
`BaeSound::process`, independent of the mute/pause flags. -/
def BaeSound.runChain (g : BlockSP γ δ) (ms : List (BlockSP γ δ)) (x : Sample) :
    Option (BlockSP γ δ × (List (BlockSP γ δ) × Sample)) :=
  match BaeSound.genStep g x with
  | none => none
  | some gp =>
    match BaeSound.modLoop ms gp.2 with
    | none => none
    | some mp => some (gp.1, mp)

/-- `Sound::process` for `BaeSound` (src/src/bae_sound.rs lines 118-142):
paused returns neutral zero with no state change; otherwise the chain runs
and the result is suppressed to zero when muted, else scaled by
`output_gain`. -/
def BaeSound.process (s : BaeSound γ δ) (input : Sample) :
    Option (BaeSound γ δ × Sample) :=
  if s.is_paused then some (s, 0)
  else
    (BaeSound.runChain s.generator s.modifier_list (input * s.input_gain)).map
      (fun r => ({ s with generator := r.1, modifier_list := r.2.1 },
                 if s.is_muted then 0 else r.2.2 * s.output_gain))

/-- Feed a list of inputs through `BaeSound.process`, collecting outputs. -/
def BaeSound.processList (s : BaeSound γ δ) :
    List Sample → Option (BaeSound γ δ × List Sample)
  | [] => some (s, [])
  | x :: xs =>
    match s.process x with
    | none => none
    | some p =>
      match p.1.processList xs with
      | none => none
      | some q => some (q.1, p.2 :: q.2)

/-- Exactly the chain described by the spec for an unmuted, unpaused sound:
prime the generator block with `input * input_gain`, process it, fold the
modifier blocks in list order (prime with the running value, replace it by
the block's result), and scale the final value by `output_gain`. -/
def BaeSound.modLoopSpec : List (BlockSP γ δ) → Sample →
    List (BlockSP γ δ) × Sample
  | [], out => ([], out)
  | b :: rest, out =>
    let p := (b.block.prime_input out).processU
    let q := BaeSound.modLoopSpec rest p.2
    ({ b with block := p.1 } :: q.1, q.2)

/-- The spec's description of `Sound::process` on the happy path (unpaused,
unmuted, every block exclusively accessible), used to state claim C5. -/
def BaeSound.processSpec (s : BaeSound γ δ) (input : Sample) :
    BaeSound γ δ × Sample :=
  let g := (s.generator.block.prime_input (input * s.input_gain)).processU
  let m := BaeSound.modLoopSpec s.modifier_list g.2
  ({ s with generator := { s.generator with block := g.1 },
            modifier_list := m.1 },
   m.2 * s.output_gain)

/-- A Rust `Vec`, keeping both the element list and the reserved capacity:
`Vec::with_capacity(n)` yields length 0 and capacity `n`, which is what
`BaeChannel::new` and `set_process_time` construct. -/
structure RustVec where
  data : List Sample
  cap : ℕ

/-- `Vec::with_capacity`: empty contents, reserved capacity. -/
def RustVec.with_capacity (n : ℕ) : RustVec :=
  ⟨[], n⟩

/-- `Vec::len`. -/
def RustVec.len (v : RustVec) : ℕ :=
  v.data.length

/-- `Vec::resize_with(newLen, default)` with the default element `0`. -/
def RustVec.resize_with (v : RustVec) (newLen : ℕ) : RustVec :=
  ⟨v.data.take newLen ++ List.replicate (newLen - v.data.length) 0,
   max v.cap newLen⟩

/-- The `as usize` cast of a float: truncation toward zero, saturating at
zero for negative values. -/
def qtrunc (q : ℚ) : ℕ :=
  q.num.toNat / q.den

/-- The `Sound` trait interface a `BaeChannel` uses on its stored
`Arc<dyn Sound>` objects, abstracted over the implementing type. A panic
inside the sound's own `process` is `none`. -/
structure SoundOps (σ : Type) where
  register : σ → ℕ → σ
  get_id : σ → Option ℕ
  process : σ → Sample → Option (σ × Sample)

/-- `SoundSP = Arc<dyn Sound>`: a sound value together with a flag recording
whether this `Arc` is shared (strong count above one). -/
structure SoundSP (σ : Type) where
  sound : σ
  shared : Bool

/-- `BaeChannel` (src/src/bae_channel.rs): sample rate, output vector,
identity-keyed mapping of sounds, gain, and the identity counter. The
mapping is modelled as an association list with the `HashMap` insert and
remove semantics spelled out below. -/
structure BaeChannel (σ : Type) where
  sample_rate : MathT
  output : RustVec
  sounds : List (ℕ × SoundSP σ)
  gain : Sample
  id_counter : ℕ

/-- `HashMap::insert`: replace the entry for `k` when present, else append. -/
def insertKV (k : ℕ) (v : α) : List (ℕ × α) → List (ℕ × α)
  | [] => [(k, v)]
  | (k', v') :: rest =>
    if k = k' then (k, v) :: rest else (k', v') :: insertKV k v rest

/-- `HashMap::get`: the value stored at `k`, if any. -/
def lookupKV (k : ℕ) : List (ℕ × α) → Option α
  | [] => none
  | (k', v') :: rest => if k = k' then some v' else lookupKV k rest

/-- `HashMap::remove`: drop the entry for `k`, if any. -/
def removeKV (k : ℕ) : List (ℕ × α) → List (ℕ × α)
  | [] => []
  | (k', v') :: rest =>
    if k = k' then rest else (k', v') :: removeKV k rest

/-- `BaeChannel::new(gain, sample_rate)`: the output vector is
`Vec::with_capacity(0.01 * sample_rate as usize)` — ten milliseconds of
reserved capacity, but length zero. -/
def BaeChannel.new (gain : MathT) (sample_rate : MathT) : BaeChannel σ :=
  ⟨sample_rate, RustVec.with_capacity (qtrunc (0.01 * sample_rate)),
   [], gain, 0⟩

/-- `BaeChannel::get_id`: return the current counter and increment it. -/
def BaeChannel.get_id (ch : BaeChannel σ) : ℕ × BaeChannel σ :=
  (ch.id_counter, { ch with id_counter := ch.id_counter + 1 })

/-- `Channel::set_process_time(d)` for `BaeChannel`: replaces the output
vector by `Vec::with_capacity(d.as_secs_f64() * sample_rate as usize)` —
again capacity only, length zero. `d` is the duration in seconds. -/
def BaeChannel.set_process_time (ch : BaeChannel σ) (d : ℚ) : BaeChannel σ :=
  { ch with output := RustVec.with_capacity (qtrunc (d * ch.sample_rate)) }

/-- `Channel::get_output` for `BaeChannel`. -/
def BaeChannel.get_output (ch : BaeChannel σ) : RustVec :=
  ch.output

/-- `Channel::set_gain` for `BaeChannel`. -/
def BaeChannel.set_gain (ch : BaeChannel σ) (gain : MathT) : BaeChannel σ :=
  { ch with gain := gain }

/-- `Channel::add_sound` for `BaeChannel`: allocate an identity, then
`SoundSP::get_mut(sound).unwrap()` — a panic (`none`) when the caller's
`Arc` is shared — register the identity on the sound, and insert a clone of
the `Arc` into the mapping. After the insertion both the caller's `Arc` and
the stored `Arc` are shared, so both are returned with the flag set. -/
def BaeChannel.add_sound (ops : SoundOps σ) (ch : BaeChannel σ)
    (sound : SoundSP σ) : Option (BaeChannel σ × SoundSP σ) :=
  let p := ch.get_id
  if sound.shared then none
  else
    let s' := ops.register sound.sound p.1
    some ({ p.2 with sounds := insertKV p.1 ⟨s', true⟩ p.2.sounds },
          ⟨s', true⟩)

/-- `Channel::remove_sound` for `BaeChannel`: drop the mapping entry; no
method is invoked on any sound. -/
def BaeChannel.remove_sound (ch : BaeChannel σ) (id : ℕ) : BaeChannel σ :=
  { ch with sounds := removeKV id ch.sounds }

/-- The inner loop of `BaeChannel::process` for one output slot: each stored
sound is unwrapped (`Arc::get_mut(..).unwrap()` — a panic, `none`, when the
stored `Arc` is shared), processed on a default (zero) input, and its
converted output added onto the slot. -/
def BaeChannel.slotMix (ops : SoundOps σ) :
    List (ℕ × SoundSP σ) → Sample → Option (List (ℕ × SoundSP σ) × Sample)
  | [], acc => some ([], acc)
  | (k, sp) :: rest, acc =>
    if sp.shared then none
    else
      match ops.process sp.sound 0 with
      | none => none
      | some p =>
        match BaeChannel.slotMix ops rest (acc + p.2) with
        | none => none
        | some q => some ((k, ⟨p.1, sp.shared⟩) :: q.1, q.2)

/-- The outer loop of `BaeChannel::process`: every slot of the output vector
accumulates the sounds' contributions and is then scaled by the gain; the
sound states thread through the slots in order. -/
def BaeChannel.mixSlots (ops : SoundOps σ) (gain : Sample) :
    List (ℕ × SoundSP σ) → List Sample →
    Option (List (ℕ × SoundSP σ) × List Sample)
  | sounds, [] => some (sounds, [])
  | sounds, slot :: slots =>
    match BaeChannel.slotMix ops sounds slot with
    | none => none
    | some p =>
      match BaeChannel.mixSlots ops gain p.1 slots with
      | none => none
      | some q => some (q.1, p.2 * gain :: q.2)

/-- `Channel::process` for `BaeChannel` (src/src/bae_channel.rs lines
69-83): first `output.resize_with(output.len(), default)` — resizing the
vector to its own current length — then the per-slot mixing loop over the
(unchanged) contents. -/
def BaeChannel.process (ops : SoundOps σ) (ch : BaeChannel σ) :
    Option (BaeChannel σ) :=
  let out := ch.output.resize_with ch.output.len
  match BaeChannel.mixSlots ops ch.gain ch.sounds out.data with
  | none => none
  | some p => some { ch with output := ⟨p.2, out.cap⟩, sounds := p.1 }

/-! Concrete instances used by the witnesses and counterexamples below. -/

/-- A trivial `Sound` implementation over the unit state: registration and
identity are ignored, processing always yields neutral zero. -/
def opsU : SoundOps Unit :=
  ⟨fun s _ => s, fun _ => none, fun s _ => some (s, 0)⟩

/-- A lawful `Sound` implementation whose state is exactly its optional
registered identity (mirroring `BaeSound`'s `register`/`get_id` pair);
processing always yields neutral zero. -/
def opsN : SoundOps (Option ℕ) :=
  ⟨fun _ i => some i, fun s => s, fun s _ => some (s, 0)⟩

/-- A generator-only block around the neutral zero generator. -/
def blockW : BaeBlock Unit Unit :=
  BaeBlock.from_generator Zero

/-- A plain sound: unit gains, zero generator block, no modifiers. -/
def soundW : BaeSound Unit Unit :=
  BaeSound.new 1 1 ⟨blockW, false⟩

/-- `soundW` after `toggle_pause`. -/
def soundP : BaeSound Unit Unit :=
  soundW.toggle_pause

/-- `soundW` with one pass-through modifier block appended. -/
def soundC5 : BaeSound Unit Unit :=
  soundW.add_modifier ⟨BaeBlock.from_modifier Passthrough, false⟩

/-- A sound whose generator block is exclusively held (`BlockSP` unshared)
but whose internal generator `Arc` is shared — the situation produced by
cloning the `Arc` returned by `BaeBlock::get_g` before handing the block to
the sound. -/
def soundBad : BaeSound Unit Unit :=
  BaeSound.new 1 1 ⟨{ blockW with gShared := true }, false⟩

/-- A sound whose generator `BlockSP` and single modifier `BlockSP` are both
shared, so both are skipped by the fallback. -/
def soundSkip : BaeSound Unit Unit :=
  { soundW with
      generator := ⟨blockW, true⟩,
      modifier_list := [⟨BaeBlock.from_modifier Passthrough, true⟩] }

/-- A fresh channel over the trivial sound type at 48 kHz, gain 1. -/
def chW : BaeChannel Unit :=
  BaeChannel.new 1 48000

/-- `chW` after `set_process_time` of 10 ms. -/
def chC1 : BaeChannel Unit :=
  chW.set_process_time 0.01

/-- A fresh channel over the identity-tracking sound type. -/
def chQ : BaeChannel (Option ℕ) :=
  BaeChannel.new 1 48000

/-- A freshly constructed unshared sound for the identity-tracking type. -/
def spN : SoundSP (Option ℕ) :=
  ⟨none, false⟩

/-- `chQ` after one successful `add_sound` of `spN`: identity 0 allocated,
counter advanced, the stored `Arc` (and the caller's) now shared. -/
def chQ1 : BaeChannel (Option ℕ) :=
  { chQ with sounds := [(0, ⟨some 0, true⟩)], id_counter := 1 }

/-- The caller's view of `spN` after the first `add_sound`: registered with
identity 0 and shared with the channel's mapping. -/
def spQ1 : SoundSP (Option ℕ) :=
  ⟨some 0, true⟩

/-! Helper lemmas about `BaeBlock`. -/

theorem BaeBlock.prime_input_arcsFree (b : BaeBlock γ δ) (x : Sample) :
    (b.prime_input x).arcsFree = b.arcsFree :=
  rfl

theorem BaeBlock.prime_input_zero (b : BaeBlock γ δ) :
    b.prime_input 0 = b := by
  cases b
  simp [BaeBlock.prime_input]

theorem BaeBlock.process_of_arcsFree (b : BaeBlock γ δ)
    (h : b.arcsFree = true) : b.process = some b.processU := by
  simp [BaeBlock.process, h]

theorem BaeBlock.process_from_generator (g : Gen γ) :
    (BaeBlock.from_generator g).process =
      some (BaeBlock.from_generator g.process.1, g.process.2) :=
  rfl

/-- Claim C7: calling `process` on a Block without an intervening
`prime_input` yields the same result and resulting state as first priming
with neutral zero and then calling `process`; moreover the accumulated
input is zero immediately after every successful `process` call, so it
never carries across cycles. -/
theorem claim_C7 {γ δ : Type} (b : BaeBlock γ δ) :
    (b.prime_input 0).process = b.process ∧
    ∀ p, b.process = some p → p.1.input = 0 := by
  refine ⟨by rw [BaeBlock.prime_input_zero], ?_⟩
  intro p hp
  unfold BaeBlock.process at hp
  split at hp
  · cases hp
    rfl
  · cases hp

/-- Witness for claim C7 at a concrete block. -/
theorem claim_C7_witness :
    ((blockW.prime_input 0).process = blockW.process) ∧
    (blockW, (0 : Sample)).1.input = 0 :=
  ⟨(claim_C7 blockW).1, (claim_C7 blockW).2 (blockW, 0) rfl⟩

/-- Claim C8: a Block built by `from_generator G`, processed `N` times with
no priming, produces exactly the sample sequence of calling `G.process()`
directly `N` times (the equality is exact in this embedding, hence within
any floating-point tolerance). -/
theorem claim_C8 {γ : Type} (g : Gen γ) (n : ℕ) :
    (BaeBlock.from_generator g).processN n =
      some (BaeBlock.from_generator (g.processN n).1, (g.processN n).2) := by
  induction n generalizing g with
  | zero => rfl
  | succ n ih =>
    simp [BaeBlock.processN, Gen.processN, BaeBlock.process_from_generator,
      ih]

/-! Helper lemmas about `BaeSound`. -/

theorem BaeSound.process_preserves_muted (s : BaeSound γ δ) (x : Sample)
    (p : BaeSound γ δ × Sample) (h : s.process x = some p) :
    p.1.is_muted = s.is_muted := by
  unfold BaeSound.process at h
  split at h
  · cases h
    rfl
  · cases hc : BaeSound.runChain s.generator s.modifier_list
      (x * s.input_gain) with
    | none => rw [hc] at h; cases h
    | some r => rw [hc] at h; cases h; rfl

theorem BaeSound.processList_preserves_muted (s : BaeSound γ δ)
    (xs : List Sample) (p : BaeSound γ δ × List Sample)
    (h : s.processList xs = some p) : p.1.is_muted = s.is_muted := by
  induction xs generalizing s p with
  | nil =>
    cases h
    rfl
  | cons x xs ih =>
    unfold BaeSound.processList at h
    cases hc : s.process x with
    | none => rw [hc] at h; cases h
    | some q =>
      rw [hc] at h
      simp only [Option.some_bind] at h
      cases hd : q.1.processList xs with
      | none => rw [hd] at h; cases h
      | some r =>
        rw [hd] at h
        simp only [Option.some_bind] at h
        cases h
        have h1 := BaeSound.process_preserves_muted s x q hc
        have h2 := ih q.1 r hd
        rw [h2, h1]

/-- The mute flag is output-only: a muted sound runs the very same chain as
the unmuted one and merely suppresses the returned sample. -/
theorem BaeSound.process_muted (s : BaeSound γ δ) (x : Sample)
    (h : s.is_muted = false) :
    ({ s with is_muted := true } : BaeSound γ δ).process x =
      (s.process x).map (fun p => ({ p.1 with is_muted := true }, 0)) := by
  unfold BaeSound.process
  by_cases hp : s.is_paused
  · simp [hp]
  · simp only [hp, if_false]
    cases hc : BaeSound.runChain s.generator s.modifier_list
        (x * s.input_gain) with
    | none => simp [hc]
    | some r => simp [hc, h]

theorem BaeSound.processList_muted (s : BaeSound γ δ) (xs : List Sample)
    (h : s.is_muted = false) :
    ({ s with is_muted := true } : BaeSound γ δ).processList xs =
      (s.processList xs).map
        (fun p => ({ p.1 with is_muted := true },
                   List.replicate xs.length 0)) := by
  induction xs generalizing s with
  | nil => simp [BaeSound.processList]
  | cons x xs ih =>
    unfold BaeSound.processList
    rw [BaeSound.process_muted s x h]
    cases hc : s.process x with
    | none => simp
    | some q =>
      have hq : q.1.is_muted = false := by
        rw [BaeSound.process_preserves_muted s x q hc, h]
      simp only [Option.map_some', Option.some_bind]
      rw [ih q.1 hq]
      cases hd : q.1.processList xs with
      | none => simp
      | some r => simp [List.replicate]

theorem BaeSound.toggle_mute_twice (s : BaeSound γ δ) :
    s.toggle_mute.toggle_mute = s := by
  cases s
  simp [BaeSound.toggle_mute]

/-- Claim C3: muting suppresses only the audible output — the chain state
advances exactly as when unmuted, each muted call returns neutral zero, and
unmuting after `K` calls resumes with the very same post-unmute output
sequence that the never-muted sound would produce. -/
theorem claim_C3 {γ δ : Type} (s : BaeSound γ δ) (xs ys : List Sample)
    (s1 : BaeSound γ δ) (outs : List Sample)
    (hm : s.is_muted = false) (hrun : s.processList xs = some (s1, outs)) :
    s.toggle_mute.processList xs =
      some (s1.toggle_mute, List.replicate xs.length 0) ∧
    s1.toggle_mute.toggle_mute.processList ys = s1.processList ys := by
  have h1 : s1.is_muted = false := by
    rw [BaeSound.processList_preserves_muted s xs (s1, outs) hrun, hm]
  have ht : s.toggle_mute = { s with is_muted := true } := by
    simp [BaeSound.toggle_mute, hm]
  have ht1 : s1.toggle_mute = { s1 with is_muted := true } := by
    simp [BaeSound.toggle_mute, h1]
  refine ⟨?_, by rw [BaeSound.toggle_mute_twice]⟩
  rw [ht, BaeSound.processList_muted s xs hm, hrun, ht1]
  rfl

/-- Witness for claim C3 at a concrete sound and input lists. -/
theorem claim_C3_witness :
    soundW.toggle_mute.processList [0] =
      some (soundW.toggle_mute, List.replicate 1 0) ∧
    soundW.toggle_mute.toggle_mute.processList [0] =
      soundW.processList [0] :=
  claim_C3 soundW [0] [0] soundW [0] rfl
    (by simp [soundW, blockW, BaeSound.new, BaeSound.processList,
      BaeSound.process, BaeSound.runChain, BaeSound.genStep,
      BaeSound.modLoop, BaeBlock.prime_input, BaeBlock.process,
      BaeBlock.processU, BaeBlock.from_generator, BaeBlock.arcsFree,
      Gen.process, Zero, Mod.process, Passthrough,
      BaeBlock.generator_passthrough])

/-- Claim C4: processing a paused sound returns neutral zero and changes no
state at all — the identical sound value is returned, so resuming continues
exactly where processing left off. -/
theorem claim_C4 {γ δ : Type} (s : BaeSound γ δ) (x : Sample)
    (h : s.is_paused = true) : s.process x = some (s, 0) := by
  unfold BaeSound.process
  rw [h]
  simp

/-- Witness for claim C4 at a concrete paused sound. -/
theorem claim_C4_witness : soundP.process 0 = some (soundP, 0) :=
  claim_C4 soundP 0 rfl

/-- When every modifier block is exclusively held with unshared internals,
the modifier loop is exactly the spec's serial fold. -/
theorem BaeSound.modLoop_spec (ms : List (BlockSP γ δ))
    (h : ∀ b ∈ ms, b.shared = false ∧ b.block.arcsFree = true) :
    ∀ out, BaeSound.modLoop ms out = some (BaeSound.modLoopSpec ms out) := by
  induction ms with
  | nil => intro out; rfl
  | cons b rest ih =>
    intro out
    have hb := h b (List.mem_cons_self b rest)
    have hrest : ∀ c ∈ rest, c.shared = false ∧ c.block.arcsFree = true :=
      fun c hc => h c (List.mem_cons_of_mem b hc)
    have hpr : (b.block.prime_input out).process =
        some (b.block.prime_input out).processU :=
      BaeBlock.process_of_arcsFree _
        (by rw [BaeBlock.prime_input_arcsFree]; exact hb.2)
    unfold BaeSound.modLoop BaeSound.modLoopSpec
    rw [hb.1]
    simp only [Bool.false_eq_true, if_false, hpr, ih hrest]

/-- Claim C5: for an unpaused, unmuted sound whose blocks are all
exclusively accessible, `process` primes the generator block with
`input * input_gain`, processes it, threads the running value through each
modifier block strictly in list order (priming, then replacing the value
with the block's result), and returns the final value times `output_gain` —
exactly the computation `BaeSound.processSpec` transcribes from the spec. -/
theorem claim_C5 {γ δ : Type} (s : BaeSound γ δ) (x : Sample)
    (hp : s.is_paused = false) (hm : s.is_muted = false)
    (hg : s.generator.shared = false)
    (hgb : s.generator.block.arcsFree = true)
    (hmods : ∀ b ∈ s.modifier_list,
      b.shared = false ∧ b.block.arcsFree = true) :
    s.process x = some (s.processSpec x) := by
  have hpr : (s.generator.block.prime_input (x * s.input_gain)).process =
      some (s.generator.block.prime_input (x * s.input_gain)).processU :=
    BaeBlock.process_of_arcsFree _
      (by rw [BaeBlock.prime_input_arcsFree]; exact hgb)
  unfold BaeSound.process BaeSound.runChain BaeSound.genStep
    BaeSound.processSpec
  rw [hp, hg]
  simp only [Bool.false_eq_true, if_false, hpr,
    BaeSound.modLoop_spec s.modifier_list hmods, hm, hg,
    Option.map_some']

/-- Witness for claim C5 at a concrete sound with one modifier block. -/
theorem claim_C5_witness : soundC5.process 0 = some (soundC5.processSpec 0) :=
  claim_C5 soundC5 0 rfl rfl rfl rfl
    (by
      intro b hb
      simp only [soundC5, soundW, BaeSound.add_modifier, BaeSound.new,
        List.nil_append, List.mem_singleton] at hb
      subst hb
      exact ⟨rfl, rfl⟩)

/-- When every exclusively-held modifier block has unshared internals, the
modifier loop completes, and every skipped (shared) block is carried over
unchanged into the resulting list. -/
theorem BaeSound.modLoop_total (ms : List (BlockSP γ δ))
    (h : ∀ b ∈ ms, b.shared = false → b.block.arcsFree = true) :
    ∀ out, ∃ q, BaeSound.modLoop ms out = some q ∧
      ∀ b ∈ ms, b.shared = true → b ∈ q.1 := by
  induction ms with
  | nil => exact fun out => ⟨([], out), rfl, by simp⟩
  | cons b rest ih =>
    intro out
    have hrest : ∀ c ∈ rest, c.shared = false → c.block.arcsFree = true :=
      fun c hc => h c (List.mem_cons_of_mem b hc)
    by_cases hsh : b.shared
    · obtain ⟨q, hq, hmem⟩ := ih hrest out
      refine ⟨(b :: q.1, q.2), ?_, ?_⟩
      · unfold BaeSound.modLoop
        rw [if_pos hsh, hq]
      · intro c hc hcs
        rcases List.mem_cons.1 hc with hcb | hcr
        · subst hcb; exact List.mem_cons_self c q.1
        · exact List.mem_cons_of_mem b (hmem c hcr hcs)
    · have hsh' : b.shared = false := by simpa using hsh
      have hfree := h b (List.mem_cons_self b rest) hsh'
      have hpr : (b.block.prime_input out).process =
          some (b.block.prime_input out).processU :=
        BaeBlock.process_of_arcsFree _
          (by rw [BaeBlock.prime_input_arcsFree]; exact hfree)
      obtain ⟨q, hq, hmem⟩ := ih hrest (b.block.prime_input out).processU.2
      refine ⟨({ b with block := (b.block.prime_input out).processU.1 } ::
        q.1, q.2), ?_, ?_⟩
      · unfold BaeSound.modLoop
        rw [if_neg hsh]
        simp only [hpr, hq]
      · intro c hc hcs
        rcases List.mem_cons.1 hc with hcb | hcr
        · subst hcb; rw [hcs] at hsh'; cases hsh'
        · exact List.mem_cons_of_mem _ (hmem c hcr hcs)

/-- Counterexample to claim C9 as stated: a sound whose generator block is
exclusively held but whose internal generator `Arc` is shared (obtainable by
cloning the reference returned by `BaeBlock::get_g`); `Sound::process` hits
`Arc::get_mut(..).unwrap()` inside `BaeBlock::process` and panics instead of
applying a fallback. -/
theorem claim_C9_counterexample : soundBad.process 0 = none :=
  rfl

/-- Claim C9 as amended: the skip fallback covers a block whose own `Arc`
is shared — processing completes and carries the skipped block through
unchanged — and `process` surfaces no failure provided every block it can
access exclusively has unshared internal generator/modifier/interactor
`Arc`s. -/
theorem claim_C9_theorem {γ δ : Type} (s : BaeSound γ δ) (x : Sample)
    (hg : s.generator.shared = false → s.generator.block.arcsFree = true)
    (hmods : ∀ b ∈ s.modifier_list,
      b.shared = false → b.block.arcsFree = true) :
    ∃ p, s.process x = some p ∧
      (s.generator.shared = true → p.1.generator = s.generator) ∧
      ∀ b ∈ s.modifier_list, b.shared = true → b ∈ p.1.modifier_list := by
  by_cases hp : s.is_paused
  · refine ⟨(s, 0), ?_, fun _ => rfl, fun b hb _ => hb⟩
    unfold BaeSound.process
    rw [if_pos hp]
  · have hgen : ∃ gp, BaeSound.genStep s.generator (x * s.input_gain) =
        some gp ∧ (s.generator.shared = true → gp.1 = s.generator) := by
      by_cases hsh : s.generator.shared
      · refine ⟨(s.generator, 0), ?_, fun _ => rfl⟩
        unfold BaeSound.genStep
        rw [if_pos hsh]
      · have hsh' : s.generator.shared = false := by simpa using hsh
        have hpr : (s.generator.block.prime_input
            (x * s.input_gain)).process =
            some (s.generator.block.prime_input (x * s.input_gain)).processU :=
          BaeBlock.process_of_arcsFree _
            (by rw [BaeBlock.prime_input_arcsFree]; exact hg hsh')
        refine ⟨({ s.generator with block :=
            (s.generator.block.prime_input (x * s.input_gain)).processU.1 },
          (s.generator.block.prime_input (x * s.input_gain)).processU.2),
          ?_, fun hc => ?_⟩
        · unfold BaeSound.genStep
          rw [if_neg hsh]
          simp only [hpr]
        · rw [hsh'] at hc; cases hc
    obtain ⟨gp, hgp, hgp1⟩ := hgen
    obtain ⟨q, hq, hqmem⟩ :=
      BaeSound.modLoop_total s.modifier_list hmods gp.2
    refine ⟨({ s with generator := gp.1, modifier_list := q.1 },
      if s.is_muted then 0 else q.2 * s.output_gain), ?_, ?_, ?_⟩
    · unfold BaeSound.process BaeSound.runChain
      rw [if_neg hp]
      simp only [hgp, hq, Option.map_some']
    · intro h
      simp only [hgp1 h]
    · intro b hb hsh
      exact hqmem b hb hsh

/-- Witness for the amended claim C9 at a concrete sound whose generator
and single modifier block `Arc`s are both shared and therefore skipped. -/
theorem claim_C9_witness :
    ∃ p, soundSkip.process 0 = some p ∧
      (soundSkip.generator.shared = true →
        p.1.generator = soundSkip.generator) ∧
      ∀ b ∈ soundSkip.modifier_list,
        b.shared = true → b ∈ p.1.modifier_list :=
  claim_C9_theorem soundSkip 0
    (fun h => by cases h)
    (by
      intro b hb h
      simp only [soundSkip, soundW, BaeSound.new, List.mem_singleton] at hb
      subst hb
      cases h)

/-! Helper lemmas about the association-list model of the channel map. -/

theorem lookupKV_eq_none_of_lt (l : List (ℕ × α)) (n : ℕ)
    (h : ∀ k ∈ l.map Prod.fst, k < n) : lookupKV n l = none := by
  induction l with
  | nil => rfl
  | cons p rest ih =>
    have hk : p.1 < n := h p.1 (by simp)
    have hne : n ≠ p.1 := fun he => absurd hk (by rw [he]; exact lt_irrefl _)
    obtain ⟨k, v⟩ := p
    simp only [lookupKV]
    rw [if_neg hne]
    exact ih fun j hj => h j (by simp at hj ⊢; right; exact hj)

theorem insertKV_of_fresh (l : List (ℕ × α)) (n : ℕ) (v : α)
    (h : lookupKV n l = none) : insertKV n v l = l ++ [(n, v)] := by
  induction l with
  | nil => rfl
  | cons p rest ih =>
    obtain ⟨k, v'⟩ := p
    simp only [lookupKV] at h
    by_cases he : n = k
    · rw [if_pos he] at h; cases h
    · rw [if_neg he] at h
      simp only [insertKV]
      rw [if_neg he, ih h]
      rfl

theorem lookupKV_append_self (l : List (ℕ × α)) (n : ℕ) (v : α)
    (h : lookupKV n l = none) : lookupKV n (l ++ [(n, v)]) = some v := by
  induction l with
  | nil => simp [lookupKV]
  | cons p rest ih =>
    obtain ⟨k, v'⟩ := p
    simp only [lookupKV, List.cons_append] at h ⊢
    by_cases he : n = k
    · rw [if_pos he] at h; cases h
    · rw [if_neg he] at h ⊢
      exact ih h

theorem lookupKV_append_other (l : List (ℕ × α)) (k n : ℕ) (v : α)
    (h : k ≠ n) : lookupKV k (l ++ [(n, v)]) = lookupKV k l := by
  induction l with
  | nil => simp [lookupKV, if_neg h]
  | cons p rest ih =>
    obtain ⟨j, v'⟩ := p
    simp only [lookupKV, List.cons_append]
    by_cases he : k = j
    · simp only [if_pos he]
    · rw [if_neg he, if_neg he]
      exact ih

theorem removeKV_append (l : List (ℕ × α)) (n : ℕ) (v : α)
    (h : lookupKV n l = none) : removeKV n (l ++ [(n, v)]) = l := by
  induction l with
  | nil => simp [removeKV]
  | cons p rest ih =>
    obtain ⟨k, v'⟩ := p
    simp only [lookupKV] at h
    by_cases he : n = k
    · rw [if_pos he] at h; cases h
    · rw [if_neg he] at h
      simp only [removeKV, List.cons_append, List.append_eq]
      rw [if_neg he, ih h]

theorem removeKV_of_none (l : List (ℕ × α)) (j : ℕ)
    (h : lookupKV j l = none) : removeKV j l = l := by
  induction l with
  | nil => rfl
  | cons p rest ih =>
    obtain ⟨k, v'⟩ := p
    simp only [lookupKV] at h
    by_cases he : j = k
    · rw [if_pos he] at h; cases h
    · rw [if_neg he] at h
      simp only [removeKV]
      rw [if_neg he, ih h]

/-- `remove_sound` with an absent identity is a no-op on the whole channel. -/
theorem BaeChannel.remove_sound_absent (ch : BaeChannel σ) (j : ℕ)
    (h : lookupKV j ch.sounds = none) : ch.remove_sound j = ch := by
  obtain ⟨sr, out, snds, g, idc⟩ := ch
  unfold BaeChannel.remove_sound
  simp only at h
  simp [removeKV_of_none snds j h]

/-- `process` on a channel whose output vector is empty (the only state its
constructors ever produce) performs no iteration and leaves the channel as
it was. -/
theorem BaeChannel.process_empty (ops : SoundOps σ) (ch : BaeChannel σ)
    (hout : ch.output.data = []) : BaeChannel.process ops ch = some ch := by
  obtain ⟨sr, out, snds, g, idc⟩ := ch
  obtain ⟨data, cap⟩ := out
  simp only at hout
  subst hout
  unfold BaeChannel.process RustVec.resize_with RustVec.len
  simp [BaeChannel.mixSlots]

/-- `add_sound` succeeds exactly on an unshared caller `Arc`. -/
theorem BaeChannel.add_sound_isSome (ops : SoundOps σ) (ch : BaeChannel σ)
    (sp : SoundSP σ) (hsp : sp.shared = false) :
    (BaeChannel.add_sound ops ch sp).isSome = true := by
  unfold BaeChannel.add_sound
  rw [hsp]
  simp

/-- Claim C1 evaluation at the failing input: a fresh 48 kHz channel has a
buffer of capacity 480 but length 0, `set_process_time(10 ms)` again yields
capacity 480 and length 0, and `process()` leaves the buffer holding 0
entries — not the `d * sample_rate = 480` entries the claim requires
(`Vec::with_capacity` never sets the length and
`resize_with(self.output.len(), ..)` is a no-op). -/
theorem claim_C1_eval :
    chW.output.cap = 480 ∧ chW.output.data.length = 0 ∧
    chC1.output.cap = 480 ∧ chC1.output.data.length = 0 ∧
    BaeChannel.process opsU chC1 = some chC1 := by
  have h480 : (0.01 * 48000 : ℚ) = 480 := by norm_num
  have hq : qtrunc (0.01 * 48000) = 480 := by
    rw [qtrunc, h480]
    simp
  refine ⟨?_, rfl, ?_, rfl, BaeChannel.process_empty opsU chC1 rfl⟩
  · show qtrunc (0.01 * 48000) = 480
    exact hq
  · show qtrunc (0.01 * 48000) = 480
    exact hq

/-- Counterexample to claim C2 as stated: `add_sound` with a sound `Arc`
that is still referenced elsewhere (shared) panics at
`SoundSP::get_mut(sound).unwrap()` instead of completing with a fallback. -/
theorem claim_C2_counterexample :
    BaeChannel.add_sound opsU chW ⟨(), true⟩ = none :=
  rfl

/-- Claim C2 as amended: `process` completes normally — but only because
the output buffer is always empty, so its per-sound
`Arc::get_mut(..).unwrap()` loop never executes — and `add_sound` completes
normally exactly when the caller's sound `Arc` is not shared; no fallback
is applied on a conflict, the call panics. -/
theorem claim_C2_theorem {σ : Type} (ops : SoundOps σ) (ch : BaeChannel σ)
    (sp : SoundSP σ) (hout : ch.output.data = []) (hsp : sp.shared = false) :
    BaeChannel.process ops ch = some ch ∧
    (BaeChannel.add_sound ops ch sp).isSome = true :=
  ⟨BaeChannel.process_empty ops ch hout,
   BaeChannel.add_sound_isSome ops ch sp hsp⟩

/-- Witness for the amended claim C2 at a concrete channel and sound. -/
theorem claim_C2_witness :
    BaeChannel.process opsU chW = some chW ∧
    (BaeChannel.add_sound opsU chW ⟨(), false⟩).isSome = true :=
  claim_C2_theorem opsU chW ⟨(), false⟩ rfl rfl

/-- Counterexample to claim C6 as stated: adding the same sound reference
twice does not succeed — after the first `add_sound` the caller's `Arc` is
shared with the mapping's clone, so the second `add_sound` panics at
`SoundSP::get_mut(sound).unwrap()` rather than assigning a second identity. -/
theorem claim_C6_counterexample :
    (BaeChannel.add_sound opsN chQ spN).bind
      (fun p => BaeChannel.add_sound opsN p.1 p.2) = none :=
  rfl

/-- Claim C6 as amended: identities allocated by successful `add_sound`
calls are fresh, unique and strictly increasing over the Channel's lifetime
(the new identity is the current counter, unused by the mapping, and the
counter invariant is preserved), but adding the same sound reference twice
panics on the second call instead of mixing the sound twice. -/
theorem claim_C6_theorem {σ : Type} (ops : SoundOps σ)
    (ch ch' : BaeChannel σ) (sp sp' : SoundSP σ)
    (hinv : ∀ k ∈ ch.sounds.map Prod.fst, k < ch.id_counter)
    (hadd : BaeChannel.add_sound ops ch sp = some (ch', sp')) :
    ch'.id_counter = ch.id_counter + 1 ∧
    lookupKV ch.id_counter ch.sounds = none ∧
    lookupKV ch.id_counter ch'.sounds =
      some ⟨ops.register sp.sound ch.id_counter, true⟩ ∧
    (∀ k, k ≠ ch.id_counter → lookupKV k ch'.sounds = lookupKV k ch.sounds) ∧
    (∀ k ∈ ch'.sounds.map Prod.fst, k < ch'.id_counter) ∧
    BaeChannel.add_sound ops ch' sp' = none := by
  have hfresh : lookupKV ch.id_counter ch.sounds = none :=
    lookupKV_eq_none_of_lt ch.sounds ch.id_counter hinv
  unfold BaeChannel.add_sound BaeChannel.get_id at hadd
  by_cases hsh : sp.shared
  · rw [if_pos hsh] at hadd; cases hadd
  · rw [if_neg hsh] at hadd
    cases hadd
    have hins := insertKV_of_fresh ch.sounds ch.id_counter
      (⟨ops.register sp.sound ch.id_counter, true⟩ : SoundSP σ) hfresh
    refine ⟨rfl, hfresh, ?_, ?_, ?_, rfl⟩
    · simp only [hins]
      exact lookupKV_append_self ch.sounds ch.id_counter _ hfresh
    · intro k hk
      simp only [hins]
      exact lookupKV_append_other ch.sounds k ch.id_counter _ hk
    · intro k hk
      simp only [hins, List.map_append, List.mem_append] at hk
      rcases hk with hk | hk
      · exact Nat.lt_succ_of_lt (hinv k hk)
      · simp at hk
        rw [hk]
        exact Nat.lt_succ_self _

/-- Witness for the amended claim C6 at a concrete channel. -/
theorem claim_C6_witness :
    chQ1.id_counter = chQ.id_counter + 1 ∧
    lookupKV chQ.id_counter chQ.sounds = none ∧
    lookupKV chQ.id_counter chQ1.sounds =
      some ⟨opsN.register spN.sound chQ.id_counter, true⟩ ∧
    (∀ k, k ≠ chQ.id_counter →
      lookupKV k chQ1.sounds = lookupKV k chQ.sounds) ∧
    (∀ k ∈ chQ1.sounds.map Prod.fst, k < chQ1.id_counter) ∧
    BaeChannel.add_sound opsN chQ1 spQ1 = none :=
  claim_C6_theorem opsN chQ chQ1 spN spQ1
    (by simp [chQ, BaeChannel.new]) rfl

/-- Claim C10: `remove_sound` removes exactly the mapping entry for the
given identity (restoring the pre-`add_sound` mapping) and is a complete
no-op for an absent identity; it never calls `unregister` on any sound —
in particular the caller's reference to a sound registered under the
removed identity still reports that identity afterwards. -/
theorem claim_C10 {σ : Type} (ops : SoundOps σ) (ch ch' : BaeChannel σ)
    (sp sp' : SoundSP σ)
    (hlaw : ∀ t i, ops.get_id (ops.register t i) = some i)
    (hinv : ∀ k ∈ ch.sounds.map Prod.fst, k < ch.id_counter)
    (hadd : BaeChannel.add_sound ops ch sp = some (ch', sp')) :
    ops.get_id sp'.sound = some ch.id_counter ∧
    (ch'.remove_sound ch.id_counter).sounds = ch.sounds ∧
    (ch'.remove_sound ch.id_counter).output = ch'.output ∧
    (ch'.remove_sound ch.id_counter).gain = ch'.gain ∧
    (ch'.remove_sound ch.id_counter).id_counter = ch'.id_counter ∧
    ∀ j, lookupKV j ch.sounds = none → ch.remove_sound j = ch := by
  have hfresh : lookupKV ch.id_counter ch.sounds = none :=
    lookupKV_eq_none_of_lt ch.sounds ch.id_counter hinv
  unfold BaeChannel.add_sound BaeChannel.get_id at hadd
  by_cases hsh : sp.shared
  · rw [if_pos hsh] at hadd; cases hadd
  · rw [if_neg hsh] at hadd
    cases hadd
    have hins := insertKV_of_fresh ch.sounds ch.id_counter
      (⟨ops.register sp.sound ch.id_counter, true⟩ : SoundSP σ) hfresh
    refine ⟨hlaw sp.sound ch.id_counter, ?_, rfl, rfl, rfl,
      fun j hj => BaeChannel.remove_sound_absent ch j hj⟩
    show removeKV ch.id_counter
      (insertKV ch.id_counter _ ch.sounds) = ch.sounds
    rw [hins]
    exact removeKV_append ch.sounds ch.id_counter _ hfresh

/-- Witness for claim C10 at a concrete channel. -/
theorem claim_C10_witness :
    opsN.get_id spQ1.sound = some chQ.id_counter ∧
    (chQ1.remove_sound chQ.id_counter).sounds = chQ.sounds ∧
    (chQ1.remove_sound chQ.id_counter).output = chQ1.output ∧
    (chQ1.remove_sound chQ.id_counter).gain = chQ1.gain ∧
    (chQ1.remove_sound chQ.id_counter).id_counter = chQ1.id_counter ∧
    ∀ j, lookupKV j chQ.sounds = none → chQ.remove_sound j = chQ :=
  claim_C10 opsN chQ chQ1 spN spQ1 (fun t i => rfl)
    (by simp [chQ, BaeChannel.new]) rfl

end BAE
